import Mathlib

/-!
Verification of the RecSyncNG post-processing pipeline
(`PostProcessing/PostProcessVideos.py`).

The orchestrator `PostProcessVideos.py` is modelled directly.  The helper
modules it imports (`dataframes`, `video`) are part of the repository but
their sources are not available here; the four functions the orchestrator
uses from `dataframes` (`compute_time_step`, `repair_dropped_frames`,
`compute_time_range`, `trim_repaired_into_interval`) are modelled from the
specification, as indicated in their doc comments.

Timestamps are nanosecond integers (`Int`); tables are ordered lists of
records.
-/

/-- One row of a timestamp table: the original frame index, the timestamp in
nanoseconds, and whether the row was synthesized by gap repair. -/
structure TimestampRecord where
  frame_index : Int
  timestamp_ns : Int
  synthesized : Bool
deriving DecidableEq, Repr

/-- A record copied to the output of repair, marked as original data. -/
def markOriginal (r : TimestampRecord) : TimestampRecord :=
  { r with synthesized := false }

/-- A synthetic record inserted by gap repair at the given timestamp. -/
def synthRecord (ts : Int) : TimestampRecord :=
  { frame_index := 0, timestamp_ns := ts, synthesized := true }

/-- The `n - 1` synthetic records filling a gap of `n` nominal steps that
starts at timestamp `t0`: timestamps `t0 + step`, ..., `t0 + (n-1)*step`. -/
def synthFill (t0 step : Int) (n : Nat) : List TimestampRecord :=
  (List.range (n - 1)).map (fun j : Nat => synthRecord (t0 + ((j : Int) + 1) * step))

/-- Round-to-nearest division of a gap by the nominal step (both positive in
all uses): `round(gap / step)`. -/
def roundCount (gap step : Int) : Nat :=
  ((2 * gap + step) / (2 * step)).toNat

/-- Consecutive timestamps differ by exactly `step` throughout the list. -/
def chainStep (step : Int) (l : List TimestampRecord) : Prop :=
  l.Chain' (fun a b => b.timestamp_ns - a.timestamp_ns = step)

instance instDecidableChainStep (step : Int) :
    (l : List TimestampRecord) → Decidable (chainStep step l)
  | [] => isTrue (by rw [chainStep]; exact List.chain'_nil)
  | [r] => isTrue (by rw [chainStep]; exact List.chain'_singleton r)
  | a :: b :: l =>
      if h : b.timestamp_ns - a.timestamp_ns = step then
        match instDecidableChainStep step (b :: l) with
        | isTrue ht => isTrue (by rw [chainStep, List.chain'_cons]; exact ⟨h, ht⟩)
        | isFalse hf => isFalse (by rw [chainStep, List.chain'_cons]; exact fun hc => hf hc.2)
      else isFalse (by rw [chainStep, List.chain'_cons]; exact fun hc => h hc.1)

/-- Walk of the repair loop after the first record has been emitted.
`prev` is the last raw record already processed.  Modelled from the spec:
a consecutive gap below `1.5 * step` is a normal frame and the next record
is copied marked `synthesized = false`; otherwise `round(gap/step) - 1`
synthetic records spaced `step` apart are inserted before it. -/
def repairGo (step : Int) : TimestampRecord → List TimestampRecord → List TimestampRecord
  | _, [] => []
  | prev, next :: rest =>
      (if 2 * (next.timestamp_ns - prev.timestamp_ns) < 3 * step then
        [markOriginal next]
      else
        synthFill prev.timestamp_ns step
            (roundCount (next.timestamp_ns - prev.timestamp_ns) step)
          ++ [markOriginal next])
        ++ repairGo step next rest

/-- Modelled from the spec: `dataframes.repair_dropped_frames` is not under
`src/`.  §4.1: walks the raw sequence in order, copying normal frames and
inserting evenly spaced synthetic records over dropped-frame gaps; output is
a new table built by appending, the input is not modified. -/
def repair_dropped_frames (df : List TimestampRecord) (time_step : Int) : List TimestampRecord :=
  match df with
  | [] => []
  | r0 :: rest => markOriginal r0 :: repairGo time_step r0 rest

/-- Differences between consecutive timestamps of a table. -/
def consecutiveDiffs : List TimestampRecord → List Int
  | a :: b :: rest => (b.timestamp_ns - a.timestamp_ns) :: consecutiveDiffs (b :: rest)
  | _ => []

/-- Median element of a list of integers (0 for an empty list). -/
def medianOf (l : List Int) : Int :=
  let sorted := List.insertionSort (· ≤ ·) l
  sorted.getD (sorted.length / 2) 0

/-- Fatal error for a raw table that is too short to infer a time step. -/
def notEnoughRecordsMsg : String :=
  "Cannot infer the nominal time step: need at least 2 records."

/-- Modelled from the spec: `dataframes.compute_time_step` is not under
`src/`.  §4.1: infers the nominal inter-frame interval as a robust (median)
estimate of the consecutive timestamp differences; §4.1 edge case: a table
with fewer than 2 records is a fatal input error. -/
def compute_time_step (df : List TimestampRecord) : Except String Int :=
  match df with
  | _ :: _ :: _ => .ok (medianOf (consecutiveDiffs df))
  | _ => .error notEnoughRecordsMsg

/-- The per-device repair steps of `main`: `compute_time_step` followed by
`repair_dropped_frames` (PostProcessVideos.py lines 89-90). -/
def repairPipeline (df : List TimestampRecord) : Except String (List TimestampRecord) := do
  let time_step ← compute_time_step df
  pure (repair_dropped_frames df time_step)

/-- Timestamp of the first record of a table (0 for an empty table; all
tables reaching `compute_time_range` are repaired and non-empty). -/
def firstStamp (df : List TimestampRecord) : Int :=
  match df with
  | [] => 0
  | r :: _ => r.timestamp_ns

/-- Timestamp of the last record of a table (0 for an empty table). -/
def lastStamp (df : List TimestampRecord) : Int :=
  (df.map (fun r => r.timestamp_ns)).getLastD 0

/-- Fatal error for device sessions with no common recording window. -/
def emptyOverlapMsg : String :=
  "Empty overlap: the device sessions share no common recording window."

/-- Error for a batch with no timestamp tables at all. -/
def noTablesMsg : String :=
  "No timestamp tables to align."

/-- Modelled from the spec: `dataframes.compute_time_range` is not under
`src/`.  §4.2: `start_ns` is the maximum of each table's first timestamp,
`end_ns` the minimum of each table's last timestamp; when
`start_ns > end_ns` the result is a hard "empty overlap" failure.  `main`
binds the result to `(min_common, max_common)`. -/
def compute_time_range (dfs : List (List TimestampRecord)) : Except String (Int × Int) :=
  match dfs with
  | [] => .error noTablesMsg
  | d0 :: rest =>
      let s := rest.foldl (fun acc df => max acc (firstStamp df)) (firstStamp d0)
      let e := rest.foldl (fun acc df => min acc (lastStamp df)) (lastStamp d0)
      if e < s then .error emptyOverlapMsg else .ok (s, e)

/-- Modelled from the spec: `dataframes.trim_repaired_into_interval` is not
under `src/`.  §4.3: selects from each repaired table the records with
`start_ns <= timestamp_ns <= end_ns`, preserving order; the threshold does
not drive the selection (it is surfaced to the operator by the consistency
check in `main`). -/
def trim_repaired_into_interval (dfs : List (List TimestampRecord))
    (min_common max_common : Int) (_threshold_ns : Int) : List (List TimestampRecord) :=
  dfs.map (fun df =>
    df.filter (fun r => min_common ≤ r.timestamp_ns && r.timestamp_ns ≤ max_common))

/-- Suffix of the misaligned-trim error message (PostProcessVideos.py
line 114). -/
def thresholdSuggestionMsg : String :=
  " Try to increase the threshold."

/-- The misaligned-trim error message raised by `main` (PostProcessVideos.py
lines 112-114). -/
def mkMismatchMsg (cID : String) (expected found : Nat) : String :=
  "For client " ++ cID ++ ": expecting " ++ toString expected ++ " frames. Found "
    ++ toString found ++ "." ++ " This might be due to an excessive phase offset during recording."
    ++ thresholdSuggestionMsg

/-- The error Python raises when indexing element 0 of an empty list, as
`main` does on an empty batch (PostProcessVideos.py lines 106-107). -/
def listIndexErrorMsg : String :=
  "IndexError: list index out of range"

/-- The comparison loop of `main` (PostProcessVideos.py lines 109-114):
each remaining client's trimmed size is compared against the first
client's. -/
def checkLoop (client0size : Nat) : List (String × List TimestampRecord) → Except String Unit
  | [] => .ok ()
  | (cID, df) :: rest =>
      if client0size ≠ df.length then .error (mkMismatchMsg cID client0size df.length)
      else checkLoop client0size rest

/-- The post-trim consistency check of `main` (PostProcessVideos.py lines
104-116): reads the first client's trimmed size (an out-of-range access on
an empty batch, as in Python) and compares every other client's size
against it. -/
def checkSameNumberOfFrames (clientIDs : List String)
    (trimmed : List (List TimestampRecord)) : Except String Unit :=
  match clientIDs, trimmed with
  | _ :: restIDs, t0 :: restTabs => checkLoop t0.length (restIDs.zip restTabs)
  | _, _ => .error listIndexErrorMsg

/-- A character accepted by one position of the client-ID pattern
`[\da-f]`: a decimal digit or a lowercase hexadecimal letter.  Python's
`\d` additionally matches non-ASCII Unicode decimal digits; names are
modelled over ASCII here. -/
def isLowerHexDigit (c : Char) : Bool :=
  c.isDigit || ('a' ≤ c && c ≤ 'f')

/-- Translation of `patt.match(p.stem)` with
`patt = re.compile("^" + "[\da-f]" * 16 + "$")` (PostProcessVideos.py lines
25-26, 32).  Python's `$` matches at the end of the string or just before a
newline at the end of the string, so a 17-character stem whose final
character is a newline also matches. -/
def matchesClientIDPattern (s : String) : Bool :=
  (s.data.length = 16 && s.data.all isLowerHexDigit)
    || (s.data.length = 17 && (s.data.take 16).all isLowerHexDigit
          && s.data.getLast? == some '\n')

/-- Acceptance predicate as described in the specification sentence under
review: exactly 16 characters, each a decimal digit or a lowercase letter
a-f.  Kept separate from `matchesClientIDPattern` (the translation of the
code) so the two can be compared. -/
def specClientIDAccept (s : String) : Bool :=
  s.data.length = 16 && s.data.all isLowerHexDigit

/-- One discovered entry of the input directory: the name stem `pathlib`
reports for it, and the parsed CSV tables and MP4 file names found inside
the like-named client folder. -/
structure DirEntry where
  stem : String
  csvs : List (List TimestampRecord)
  mp4s : List String
deriving DecidableEq

/-- The file-count error message of `scan_session_dir` (PostProcessVideos.py
lines 51, 54). -/
def expectingMsg (kind cID : String) (found : Nat) : String :=
  "Expecting 1 " ++ kind ++ " file for client " ++ cID ++ ". Found " ++ toString found ++ "."

/-- The per-client body of the second loop of `scan_session_dir`
(PostProcessVideos.py lines 44-62): exactly 1 CSV and exactly 1 MP4 are
required, else the scan raises; on success the parsed table and the MP4
name are returned. -/
def scanClient (e : DirEntry) : Except String (List TimestampRecord × String) :=
  if e.csvs.length ≠ 1 then .error (expectingMsg "CSV" e.stem e.csvs.length)
  else if e.mp4s.length ≠ 1 then .error (expectingMsg "MP4" e.stem e.mp4s.length)
  else .ok (e.csvs.getD 0 [], e.mp4s.getD 0 "")

/-- `scan_session_dir` (PostProcessVideos.py lines 21-64): keeps the entries
whose stem matches the 16-hex-digit client-ID pattern, in directory order,
then collects each client's CSV table and MP4 file, raising on any client
folder that does not hold exactly one of each. -/
def scan_session_dir (entries : List DirEntry) :
    Except String (List String × List (List TimestampRecord) × List String) := do
  let clients := entries.filter (fun e => matchesClientIDPattern e.stem)
  let rows ← clients.mapM scanClient
  pure (clients.map (fun e => e.stem), rows.map (fun r => r.1), rows.map (fun r => r.2))

/-- The per-device data handed to the frame-composition step of `main`
(PostProcessVideos.py lines 120-134): `extractTable` is passed to
`extract_frames` as `timestamps_df`, `rebuildTable` to `rebuild_video` as
`frames`, `videoFile` is the source video. -/
structure CompositionJob where
  extractTable : List TimestampRecord
  rebuildTable : List TimestampRecord
  videoFile : String
deriving DecidableEq

/-- Pairs each original table, its trimmed table and its video file into a
composition job, as the final loop of `main` does (PostProcessVideos.py
lines 120-134). -/
def zipWith3Jobs : List (List TimestampRecord) → List (List TimestampRecord) →
    List String → List CompositionJob
  | df :: dfs, t :: ts, m :: ms =>
      { extractTable := df, rebuildTable := t, videoFile := m } :: zipWith3Jobs dfs ts ms
  | _, _, _ => []

/-- The batch pipeline of `main` (PostProcessVideos.py lines 70-134) after
scanning: per-device repair, common time range, trimming, the post-trim
consistency check, then one composition job per device using the original
table for frame extraction and the trimmed table for video
reconstruction. -/
def mainPipeline (clientIDs : List String) (df_list : List (List TimestampRecord))
    (mp4_list : List String) (threshold_ns : Int) : Except String (List CompositionJob) := do
  let repaired_df_list ← df_list.mapM repairPipeline
  let (min_common, max_common) ← compute_time_range repaired_df_list
  let trimmed := trim_repaired_into_interval repaired_df_list min_common max_common threshold_ns
  let _u ← checkSameNumberOfFrames clientIDs trimmed
  pure (zipWith3Jobs df_list trimmed mp4_list)

/-- The whole program: scan the session directory, then run the batch
pipeline (PostProcessVideos.py lines 70-134). -/
def mainFull (entries : List DirEntry) (threshold_ns : Int) :
    Except String (List CompositionJob) := do
  let (clientIDs, df_list, mp4_list) ← scan_session_dir entries
  mainPipeline clientIDs df_list mp4_list threshold_ns

/-- Default threshold in milliseconds (PostProcessVideos.py line 17). -/
def DEFAULT_THRESHOLD_MILLIS : Int := 10

/-- Default threshold in nanoseconds (PostProcessVideos.py line 18). -/
def DEFAULT_THRESHOLD_NANOS : Int := DEFAULT_THRESHOLD_MILLIS * 1000 * 1000

/-- Conversion applied to the `--threshold` command-line value before it is
passed to `main` (PostProcessVideos.py lines 169-170). -/
def threshold_nanos (threshold_millis : Int) : Int :=
  threshold_millis * 1000 * 1000

/-- A two-frame sample table used as a concrete evaluation fixture. -/
def sampleTable : List TimestampRecord :=
  [⟨0, 0, false⟩, ⟨1, 10, false⟩]

/-- A one-device batch of sample tables. -/
def sampleDfs : List (List TimestampRecord) :=
  [sampleTable]

/-- The composition job the pipeline produces on the sample batch. -/
def sampleJob : CompositionJob :=
  { extractTable := sampleTable, rebuildTable := sampleTable, videoFile := "v.mp4" }

section CheckLemmas

theorem checkLoop_ok_iff (n : Nat) : ∀ (ids : List String) (tabs : List (List TimestampRecord)),
    ids.length = tabs.length →
    (checkLoop n (ids.zip tabs) = .ok () ↔ ∀ t ∈ tabs, t.length = n)
  | [], [], _ => by simp [checkLoop]
  | i :: ids, t :: tabs, h => by
      have h' : ids.length = tabs.length := by simpa using h
      have ih := checkLoop_ok_iff n ids tabs h'
      have step : checkLoop n ((i, t) :: ids.zip tabs)
          = if n ≠ t.length then .error (mkMismatchMsg i n t.length)
            else checkLoop n (ids.zip tabs) := rfl
      rw [List.zip_cons_cons, step]
      by_cases hn : n = t.length
      · rw [if_neg (by simpa using hn), ih]
        constructor
        · intro hall t' ht'
          rcases List.mem_cons.mp ht' with h1 | h2
          · exact h1 ▸ hn.symm
          · exact hall t' h2
        · intro hall t' ht'
          exact hall t' (List.mem_cons_of_mem _ ht')
      · rw [if_pos (by simpa using hn)]
        constructor
        · intro hcontra
          exact Except.noConfusion hcontra
        · intro hall
          exact absurd (hall t (List.mem_cons_self t tabs)).symm hn

theorem checkLoop_error (n : Nat) : ∀ (pairs : List (String × List TimestampRecord)) (m : String),
    checkLoop n pairs = .error m → ∃ cID found, m = mkMismatchMsg cID n found
  | [], m => by simp [checkLoop]
  | (cID, df) :: rest, m => by
      by_cases hn : n = df.length
      · simpa [checkLoop, hn] using checkLoop_error n rest m
      · simp [checkLoop, hn]
        intro hm
        exact ⟨cID, df.length, hm.symm⟩

end CheckLemmas

/-- C1: after trimming all devices of a (non-empty) batch, the consistency
check of `main` passes exactly when every device's trimmed table has the
first device's number of rows, and any failure carries an error message
ending with the suggestion to increase the threshold. -/
theorem trim_check_consistent (ids : List String) (t0 : List TimestampRecord)
    (rest : List (List TimestampRecord)) (hlen : ids.length = (t0 :: rest).length) :
    (checkSameNumberOfFrames ids (t0 :: rest) = .ok () ↔
      ∀ t ∈ t0 :: rest, t.length = t0.length) ∧
    (∀ m, checkSameNumberOfFrames ids (t0 :: rest) = .error m →
      ∃ p, m = p ++ thresholdSuggestionMsg) := by
  match ids with
  | [] => simp at hlen
  | i0 :: ids' =>
      have h' : ids'.length = rest.length := by simpa using hlen
      constructor
      · rw [show checkSameNumberOfFrames (i0 :: ids') (t0 :: rest)
              = checkLoop t0.length (ids'.zip rest) from rfl,
            checkLoop_ok_iff t0.length ids' rest h']
        simp
      · intro m hm
        rw [show checkSameNumberOfFrames (i0 :: ids') (t0 :: rest)
              = checkLoop t0.length (ids'.zip rest) from rfl] at hm
        obtain ⟨cID, found, hmsg⟩ := checkLoop_error t0.length (ids'.zip rest) m hm
        refine ⟨"For client " ++ cID ++ ": expecting " ++ toString t0.length
          ++ " frames. Found " ++ toString found ++ "."
          ++ " This might be due to an excessive phase offset during recording.", ?_⟩
        simpa [mkMismatchMsg, String.append_assoc] using hmsg

theorem trim_check_consistent_witness :
    (checkSameNumberOfFrames ["a", "b"] [[⟨0, 0, false⟩], [⟨0, 5, false⟩]] = .ok () ↔
      ∀ t ∈ [[(⟨0, 0, false⟩ : TimestampRecord)], [⟨0, 5, false⟩]],
        t.length = [(⟨0, 0, false⟩ : TimestampRecord)].length) ∧
    (∀ m, checkSameNumberOfFrames ["a", "b"] [[⟨0, 0, false⟩], [⟨0, 5, false⟩]] = .error m →
      ∃ p, m = p ++ thresholdSuggestionMsg) :=
  trim_check_consistent ["a", "b"] [⟨0, 0, false⟩] [[⟨0, 5, false⟩]] (by decide)

/-- C5: a raw table with fewer than 2 records makes the repair pipeline
(nominal-interval inference followed by repair) fail with a fatal input
error instead of producing a repaired table. -/
theorem repairPipeline_too_short (df : List TimestampRecord) (h : df.length < 2) :
    repairPipeline df = .error notEnoughRecordsMsg := by
  match df with
  | [] => rfl
  | [_] => rfl
  | _ :: _ :: _ =>
      simp only [List.length_cons] at h
      omega

theorem repairPipeline_too_short_witness :
    ([⟨0, 0, false⟩] : List TimestampRecord).length < 2 ∧
    repairPipeline [⟨0, 0, false⟩] = .error notEnoughRecordsMsg :=
  ⟨by decide, repairPipeline_too_short [⟨0, 0, false⟩] (by decide)⟩

/-- C8: the threshold is accepted in milliseconds with a default of 10, and
the value handed to the trimming step is always the millisecond value times
exactly 1,000,000, so the default threshold in nanoseconds is
10,000,000. -/
theorem threshold_millis_to_nanos :
    DEFAULT_THRESHOLD_MILLIS = 10 ∧ DEFAULT_THRESHOLD_NANOS = 10000000 ∧
    (∀ ms : Int, threshold_nanos ms = ms * 1000000) ∧
    threshold_nanos DEFAULT_THRESHOLD_MILLIS = DEFAULT_THRESHOLD_NANOS := by
  refine ⟨rfl, rfl, fun ms => ?_, rfl⟩
  unfold threshold_nanos
  ring

/-- C9: an input directory with no valid client-ID entry scans to three
empty lists, and the post-trim consistency check of `main`, which reads
element 0 of the client and table lists with no zero-device guard, takes
its out-of-range error branch on the resulting empty batch. -/
theorem scan_empty_batch (entries : List DirEntry)
    (h : ∀ e ∈ entries, matchesClientIDPattern e.stem = false) :
    scan_session_dir entries = .ok ([], [], []) ∧
    checkSameNumberOfFrames [] [] = .error listIndexErrorMsg := by
  constructor
  · unfold scan_session_dir
    have hf : entries.filter (fun e => matchesClientIDPattern e.stem) = [] := by
      rw [List.filter_eq_nil_iff]
      intro e he
      simp [h e he]
    rw [hf]
    rfl
  · rfl

theorem scan_empty_batch_witness :
    (∀ e ∈ [DirEntry.mk "NOPE" [] []], matchesClientIDPattern e.stem = false) ∧
    (scan_session_dir [DirEntry.mk "NOPE" [] []] = .ok ([], [], []) ∧
     checkSameNumberOfFrames [] [] = .error listIndexErrorMsg) :=
  ⟨by decide, scan_empty_batch [DirEntry.mk "NOPE" [] []] (by decide)⟩

/-- C10 counterexample: a directory entry whose stem has 17 characters — 16
hex digits followed by a newline — is accepted as a device session (Python's
`$` also matches just before a trailing newline), so acceptance is not
limited to stems of exactly 16 characters. -/
theorem clientID_pattern_cex :
    specClientIDAccept "0123456789abcdef\n" = false ∧
    ("0123456789abcdef\n").data.length = 17 ∧
    scan_session_dir
        [{ stem := "0123456789abcdef\n", csvs := [[⟨0, 0, false⟩]], mp4s := ["v.mp4"] }] =
      .ok (["0123456789abcdef\n"], [[⟨0, 0, false⟩]], ["v.mp4"]) :=
  ⟨by decide, by decide, by rfl⟩

/-- C10 (amended): an entry name stem matches the client-ID pattern iff it
is exactly 16 characters, each a decimal digit or a lowercase letter a-f,
or such 16 characters followed by one trailing newline; uppercase
hexadecimal letters and any other length are rejected. -/
theorem clientID_pattern_characterization (s : String) :
    matchesClientIDPattern s = true ↔
      ((s.data.length = 16 ∧ ∀ c ∈ s.data, isLowerHexDigit c = true) ∨
       (∃ t : List Char, s.data = t ++ ['\n'] ∧ t.length = 16 ∧
          ∀ c ∈ t, isLowerHexDigit c = true)) := by
  unfold matchesClientIDPattern
  simp only [Bool.or_eq_true, Bool.and_eq_true, decide_eq_true_eq, List.all_eq_true,
    beq_iff_eq]
  constructor
  · rintro (⟨h16, hall⟩ | ⟨⟨h17, htake⟩, hlast⟩)
    · exact Or.inl ⟨h16, hall⟩
    · refine Or.inr ⟨s.data.take 16, ?_, ?_, htake⟩
      · have hdlen : (s.data.drop 16).length = 1 := by
          rw [List.length_drop, h17]
        obtain ⟨x, hx⟩ := List.length_eq_one.mp hdlen
        have hsplit : s.data = s.data.take 16 ++ [x] := by
          conv_lhs => rw [← List.take_append_drop 16 s.data]
          rw [hx]
        have hgl : s.data.getLast? = some x := by
          conv_lhs => rw [hsplit]
          exact List.getLast?_concat _
        have hx' : x = '\n' := Option.some.inj (hgl.symm.trans hlast)
        rw [← hx']
        exact hsplit
      · rw [List.length_take, h17]
        omega
  · rintro (⟨h16, hall⟩ | ⟨t, hsplit, hlen, hall⟩)
    · exact Or.inl ⟨h16, hall⟩
    · refine Or.inr ⟨⟨?_, ?_⟩, ?_⟩
      · rw [hsplit, List.length_append, hlen]
        rfl
      · intro c hc
        rw [hsplit, ← hlen, List.take_left] at hc
        exact hall c hc
      · rw [hsplit, List.getLast?_concat]

section RepairLemmas

theorem map_markOriginal_id (l : List TimestampRecord) (h : ∀ r ∈ l, r.synthesized = false) :
    l.map markOriginal = l := by
  induction l with
  | nil => rfl
  | cons r rest ih =>
      have hr : r.synthesized = false := h r (List.mem_cons_self r rest)
      have hmark : markOriginal r = r := by
        cases r
        simp only [markOriginal]
        simp_all
      rw [List.map_cons, hmark, ih (fun r' hr' => h r' (List.mem_cons_of_mem _ hr'))]

theorem repairGo_uniform (step : Int) (hstep : 0 < step) :
    ∀ (rest : List TimestampRecord) (prev : TimestampRecord),
      chainStep step (prev :: rest) →
      repairGo step prev rest = rest.map markOriginal := by
  intro rest
  induction rest with
  | nil =>
      intro prev _
      rfl
  | cons next rest ih =>
      intro prev hchain
      rw [chainStep, List.chain'_cons] at hchain
      obtain ⟨hd, htl⟩ := hchain
      have hcond : 2 * (next.timestamp_ns - prev.timestamp_ns) < 3 * step := by
        rw [hd]
        linarith
      simp only [repairGo, if_pos hcond, List.singleton_append, List.map_cons]
      rw [ih next htl]

theorem repairGo_prefix (step : Int) (hstep : 0 < step) :
    ∀ (l : List TimestampRecord) (prev p : TimestampRecord) (rest : List TimestampRecord),
      chainStep step (prev :: (l ++ [p])) →
      repairGo step prev ((l ++ [p]) ++ rest)
        = (l ++ [p]).map markOriginal ++ repairGo step p rest := by
  intro l
  induction l with
  | nil =>
      intro prev p rest hchain
      simp only [List.nil_append] at hchain ⊢
      rw [chainStep, List.chain'_cons] at hchain
      obtain ⟨hd, _⟩ := hchain
      have hcond : 2 * (p.timestamp_ns - prev.timestamp_ns) < 3 * step := by
        rw [hd]
        linarith
      simp only [List.singleton_append, repairGo, if_pos hcond, List.map_cons, List.map_nil]
      rfl
  | cons a l ih =>
      intro prev p rest hchain
      simp only [List.cons_append] at hchain ⊢
      rw [chainStep, List.chain'_cons] at hchain
      obtain ⟨hd, htl⟩ := hchain
      have hcond : 2 * (a.timestamp_ns - prev.timestamp_ns) < 3 * step := by
        rw [hd]
        linarith
      have hstepgo : repairGo step prev (a :: ((l ++ [p]) ++ rest))
          = [markOriginal a] ++ repairGo step a ((l ++ [p]) ++ rest) := by
        simp only [repairGo, if_pos hcond]
      rw [hstepgo, ih a p rest htl]
      simp

theorem roundCount_exact (k : Nat) (step : Int) (hstep : 0 < step) :
    roundCount ((k : Int) * step) step = k := by
  unfold roundCount
  have h2 : (2 : Int) * step ≠ 0 := by positivity
  have hnum : 2 * ((k : Int) * step) + step = step + (k : Int) * (2 * step) := by ring
  rw [hnum, Int.add_mul_ediv_right _ _ h2,
    Int.ediv_eq_zero_of_lt (le_of_lt hstep) (by linarith)]
  simp

theorem repairGo_gap (step : Int) (hstep : 0 < step) (p q : TimestampRecord)
    (post : List TimestampRecord) (k : Nat) (hk : 2 ≤ k)
    (hgap : q.timestamp_ns - p.timestamp_ns = (k : Int) * step)
    (hpost : chainStep step (q :: post)) :
    repairGo step p (q :: post)
      = synthFill p.timestamp_ns step k ++ (markOriginal q :: post.map markOriginal) := by
  have hk' : (2 : Int) ≤ (k : Int) := by exact_mod_cast hk
  have hcond : ¬(2 * (q.timestamp_ns - p.timestamp_ns) < 3 * step) := by
    rw [hgap]
    push_neg
    nlinarith
  simp only [repairGo, if_neg hcond]
  rw [hgap, roundCount_exact k step hstep, repairGo_uniform step hstep post q hpost]
  simp

theorem chainStep_imp_lt (step : Int) (hstep : 0 < step) (l : List TimestampRecord)
    (h : chainStep step l) :
    l.Chain' (fun a b => a.timestamp_ns < b.timestamp_ns) :=
  List.Chain'.imp (fun a b hab => by linarith) h

theorem chainStep_cons_fill (step : Int) : ∀ (n : Nat) (t0 : Int) (a q : TimestampRecord),
    a.timestamp_ns = t0 →
    q.timestamp_ns = t0 + ((n : Int) + 1) * step →
    chainStep step
      (a :: ((List.range n).map (fun j : Nat => synthRecord (t0 + ((j : Int) + 1) * step))
        ++ [q])) := by
  intro n
  induction n with
  | zero =>
      intro t0 a q ha hq
      rw [chainStep]
      simp only [List.range_zero, List.map_nil, List.nil_append]
      rw [List.chain'_cons]
      refine ⟨?_, List.chain'_singleton q⟩
      rw [ha, hq]
      push_cast
      ring
  | succ n ih =>
      intro t0 a q ha hq
      have hrange : (List.range (n + 1)).map
            (fun j : Nat => synthRecord (t0 + ((j : Int) + 1) * step))
          = synthRecord (t0 + step)
            :: (List.range n).map
                 (fun j : Nat => synthRecord (t0 + step + ((j : Int) + 1) * step)) := by
        rw [List.range_succ_eq_map, List.map_cons, List.map_map]
        refine congrArg₂ _ (by norm_num) (List.map_congr_left ?_)
        intro j _
        simp only [Function.comp_apply]
        refine congrArg _ ?_
        push_cast
        ring
      rw [hrange]
      have htail := ih (t0 + step) (synthRecord (t0 + step)) q rfl
        (by rw [hq]; push_cast; ring)
      rw [chainStep, List.cons_append, List.chain'_cons]
      refine ⟨?_, htail⟩
      simp only [synthRecord, ha]
      ring

end RepairLemmas

/-- C4: for a raw table of at least 2 records with uniform spacing `step`
between consecutive timestamps, repair is the identity: the output equals
the input and every record is marked `synthesized = false`. -/
theorem repair_uniform_identity (df : List TimestampRecord) (step : Int)
    (hlen : 2 ≤ df.length) (hstep : 0 < step) (hchain : chainStep step df)
    (horig : ∀ r ∈ df, r.synthesized = false) :
    repair_dropped_frames df step = df ∧
    ∀ r ∈ repair_dropped_frames df step, r.synthesized = false := by
  match df with
  | [] => simp at hlen
  | r0 :: rest =>
      have key : repair_dropped_frames (r0 :: rest) step = (r0 :: rest).map markOriginal := by
        simp only [repair_dropped_frames, List.map_cons]
        rw [repairGo_uniform step hstep rest r0 hchain]
      rw [key, map_markOriginal_id _ horig]
      exact ⟨rfl, horig⟩

theorem repair_uniform_identity_witness :
    0 < (10 : Int) ∧
    (repair_dropped_frames [⟨0, 0, false⟩, ⟨1, 10, false⟩, ⟨2, 20, false⟩] 10
        = [⟨0, 0, false⟩, ⟨1, 10, false⟩, ⟨2, 20, false⟩] ∧
      ∀ r ∈ repair_dropped_frames [⟨0, 0, false⟩, ⟨1, 10, false⟩, ⟨2, 20, false⟩] 10,
        r.synthesized = false) :=
  ⟨by decide,
    repair_uniform_identity [⟨0, 0, false⟩, ⟨1, 10, false⟩, ⟨2, 20, false⟩] 10
      (by decide) (by decide) (by decide) (by decide)⟩

/-- C3: for a raw sequence whose consecutive differences all equal `step`
except one gap of exactly `k * step` between positions `i = pre.length` and
`i + 1`, repair inserts exactly `k - 1` synthetic records there, each
spaced `step` apart and marked `synthesized = true`, and the output is
strictly increasing. -/
theorem repair_single_gap (pre : List TimestampRecord) (p q : TimestampRecord)
    (post : List TimestampRecord) (step : Int) (k : Nat)
    (hstep : 0 < step) (hk : 2 ≤ k)
    (hpre : chainStep step (pre ++ [p]))
    (hgap : q.timestamp_ns - p.timestamp_ns = (k : Int) * step)
    (hpost : chainStep step (q :: post))
    (horig : ∀ r ∈ pre ++ p :: q :: post, r.synthesized = false) :
    repair_dropped_frames (pre ++ p :: q :: post) step
      = (pre ++ [p]) ++ synthFill p.timestamp_ns step k ++ (q :: post) ∧
    (synthFill p.timestamp_ns step k).length = k - 1 ∧
    (∀ r ∈ synthFill p.timestamp_ns step k, r.synthesized = true) ∧
    chainStep step (p :: (synthFill p.timestamp_ns step k ++ [q])) ∧
    (repair_dropped_frames (pre ++ p :: q :: post) step).Chain'
      (fun a b => a.timestamp_ns < b.timestamp_ns) := by
  have hsplit : pre ++ p :: q :: post = (pre ++ [p]) ++ (q :: post) := by simp
  have horig1 : ∀ r ∈ pre ++ [p], r.synthesized = false := by
    intro r hr
    refine horig r ?_
    rw [hsplit, List.mem_append]
    exact Or.inl hr
  have horig2 : ∀ r ∈ q :: post, r.synthesized = false := by
    intro r hr
    refine horig r ?_
    rw [hsplit, List.mem_append]
    exact Or.inr hr
  have hpref : repair_dropped_frames (pre ++ p :: q :: post) step
      = (pre ++ [p]).map markOriginal
          ++ (synthFill p.timestamp_ns step k ++ (markOriginal q :: post.map markOriginal)) := by
    cases pre with
    | nil =>
        show repair_dropped_frames (p :: q :: post) step = _
        simp only [repair_dropped_frames, List.map_cons, List.map_nil, List.nil_append,
          List.singleton_append]
        rw [repairGo_gap step hstep p q post k hk hgap hpost]
    | cons r0 pre' =>
        show repair_dropped_frames (r0 :: (pre' ++ p :: q :: post)) step = _
        simp only [repair_dropped_frames]
        have hre : pre' ++ p :: q :: post = (pre' ++ [p]) ++ (q :: post) := by simp
        rw [hre, repairGo_prefix step hstep pre' r0 p (q :: post) hpre,
          repairGo_gap step hstep p q post k hk hgap hpost]
        simp
  have hq_mark : markOriginal q :: post.map markOriginal = (q :: post).map markOriginal := by
    simp
  have hmain : repair_dropped_frames (pre ++ p :: q :: post) step
      = (pre ++ [p]) ++ synthFill p.timestamp_ns step k ++ (q :: post) := by
    rw [hpref, map_markOriginal_id _ horig1, hq_mark, map_markOriginal_id _ horig2]
    simp [List.append_assoc]
  have hfill_chain : chainStep step (p :: (synthFill p.timestamp_ns step k ++ [q])) := by
    have hk1 : ((k - 1 : Nat) : Int) + 1 = (k : Int) := by omega
    have hq' : q.timestamp_ns = p.timestamp_ns + (((k - 1 : Nat) : Int) + 1) * step := by
      rw [hk1]
      linarith [hgap]
    have h := chainStep_cons_fill step (k - 1) p.timestamp_ns p q rfl hq'
    simpa [synthFill] using h
  refine ⟨hmain, by simp [synthFill], by simp [synthFill, synthRecord], hfill_chain, ?_⟩
  have hwhole : chainStep step
      ((pre ++ [p]) ++ (synthFill p.timestamp_ns step k ++ (q :: post))) := by
    rw [chainStep, List.chain'_append]
    have hfill_tail : (synthFill p.timestamp_ns step k ++ [q]).Chain'
        (fun a b => b.timestamp_ns - a.timestamp_ns = step) := (List.chain'_cons'.mp hfill_chain).2
    refine ⟨hpre, ?_, ?_⟩
    · have : synthFill p.timestamp_ns step k ++ (q :: post)
          = (synthFill p.timestamp_ns step k ++ [q]) ++ post := by simp
      rw [this, List.chain'_append]
      refine ⟨hfill_tail, (List.chain'_cons'.mp hpost).2, ?_⟩
      intro x hx y hy
      rw [List.getLast?_concat] at hx
      have hxq : q = x := by
        simpa using hx
      rw [← hxq]
      exact (List.chain'_cons'.mp hpost).1 y hy
    · intro x hx y hy
      rw [List.getLast?_concat] at hx
      have hxp : p = x := by
        simpa using hx
      rw [← hxp]
      have hhead := (List.chain'_cons'.mp hfill_chain).1
      cases hfillcase : synthFill p.timestamp_ns step k with
      | nil =>
          rw [hfillcase] at hy
          have hyq : q = y := by
            simpa using hy
          rw [← hyq]
          refine hhead q ?_
          rw [hfillcase]
          rfl
      | cons f0 fs =>
          rw [hfillcase] at hy
          have hyf : f0 = y := by
            simpa using hy
          rw [← hyf]
          refine hhead f0 ?_
          rw [hfillcase]
          rfl
  have hassoc : repair_dropped_frames (pre ++ p :: q :: post) step
      = (pre ++ [p]) ++ (synthFill p.timestamp_ns step k ++ (q :: post)) := by
    rw [hmain, List.append_assoc]
  rw [hassoc]
  exact chainStep_imp_lt step hstep _ hwhole

theorem repair_single_gap_witness :
    0 < (10 : Int) ∧
    (repair_dropped_frames
        ([] ++ (⟨0, 0, false⟩ : TimestampRecord) :: (⟨1, 30, false⟩ : TimestampRecord)
          :: [⟨2, 40, false⟩]) 10
      = ([] ++ [(⟨0, 0, false⟩ : TimestampRecord)])
          ++ synthFill 0 10 3 ++ ((⟨1, 30, false⟩ : TimestampRecord) :: [⟨2, 40, false⟩]) ∧
    (synthFill 0 10 3).length = 3 - 1 ∧
    (∀ r ∈ synthFill 0 10 3, r.synthesized = true) ∧
    chainStep 10 ((⟨0, 0, false⟩ : TimestampRecord) :: (synthFill 0 10 3 ++ [⟨1, 30, false⟩])) ∧
    (repair_dropped_frames
        ([] ++ (⟨0, 0, false⟩ : TimestampRecord) :: (⟨1, 30, false⟩ : TimestampRecord)
          :: [⟨2, 40, false⟩]) 10).Chain'
      (fun a b => a.timestamp_ns < b.timestamp_ns)) :=
  ⟨by decide,
    repair_single_gap [] ⟨0, 0, false⟩ ⟨1, 30, false⟩ [⟨2, 40, false⟩] 10 3
      (by decide) (by decide) (by decide) (by decide) (by decide) (by decide)⟩

section TimeRangeLemmas

theorem foldl_max_bound (l : List Int) : ∀ a : Int,
    a ≤ l.foldl max a ∧ ∀ x ∈ l, x ≤ l.foldl max a := by
  induction l with
  | nil =>
      intro a
      exact ⟨le_refl a, by simp⟩
  | cons b l ih =>
      intro a
      simp only [List.foldl_cons]
      obtain ⟨h1, h2⟩ := ih (max a b)
      refine ⟨le_trans (le_max_left a b) h1, ?_⟩
      intro x hx
      rcases List.mem_cons.mp hx with rfl | hx'
      · exact le_trans (le_max_right a x) h1
      · exact h2 x hx'

theorem foldl_max_attained (l : List Int) : ∀ a : Int,
    l.foldl max a = a ∨ l.foldl max a ∈ l := by
  induction l with
  | nil =>
      intro a
      exact Or.inl rfl
  | cons b l ih =>
      intro a
      simp only [List.foldl_cons]
      rcases ih (max a b) with h | h
      · rcases max_choice a b with hm | hm
        · exact Or.inl (h.trans hm)
        · right
          rw [h, hm]
          exact List.mem_cons_self b l
      · exact Or.inr (List.mem_cons_of_mem b h)

theorem foldl_min_bound (l : List Int) : ∀ a : Int,
    l.foldl min a ≤ a ∧ ∀ x ∈ l, l.foldl min a ≤ x := by
  induction l with
  | nil =>
      intro a
      exact ⟨le_refl a, by simp⟩
  | cons b l ih =>
      intro a
      simp only [List.foldl_cons]
      obtain ⟨h1, h2⟩ := ih (min a b)
      refine ⟨le_trans h1 (min_le_left a b), ?_⟩
      intro x hx
      rcases List.mem_cons.mp hx with rfl | hx'
      · exact le_trans h1 (min_le_right a x)
      · exact h2 x hx'

theorem foldl_min_attained (l : List Int) : ∀ a : Int,
    l.foldl min a = a ∨ l.foldl min a ∈ l := by
  induction l with
  | nil =>
      intro a
      exact Or.inl rfl
  | cons b l ih =>
      intro a
      simp only [List.foldl_cons]
      rcases ih (min a b) with h | h
      · rcases min_choice a b with hm | hm
        · exact Or.inl (h.trans hm)
        · right
          rw [h, hm]
          exact List.mem_cons_self b l
      · exact Or.inr (List.mem_cons_of_mem b h)

theorem firstStamp_head? (df : List TimestampRecord) (r : TimestampRecord)
    (h : df.head? = some r) : firstStamp df = r.timestamp_ns := by
  cases df with
  | nil => simp at h
  | cons r0 rest =>
      have : r0 = r := by simpa using h
      rw [firstStamp, this]

theorem head?_firstStamp (df : List TimestampRecord) (h : df ≠ []) :
    ∃ r, df.head? = some r ∧ r.timestamp_ns = firstStamp df := by
  cases df with
  | nil => exact absurd rfl h
  | cons r0 rest => exact ⟨r0, rfl, rfl⟩

theorem lastStamp_getLast? (df : List TimestampRecord) (r : TimestampRecord)
    (h : df.getLast? = some r) : lastStamp df = r.timestamp_ns := by
  rw [lastStamp, List.getLastD_eq_getLast?, List.getLast?_map, h]
  rfl

theorem getLast?_lastStamp (df : List TimestampRecord) (h : df ≠ []) :
    ∃ r, df.getLast? = some r ∧ r.timestamp_ns = lastStamp df := by
  obtain ⟨r, hr⟩ := Option.isSome_iff_exists.mp (List.getLast?_isSome.mpr h)
  exact ⟨r, hr, (lastStamp_getLast? df r hr).symm⟩

end TimeRangeLemmas

/-- C2: for a non-empty batch of non-empty repaired tables, the common
interval has `start_ns` equal to the maximum over devices of each table's
first timestamp and `end_ns` equal to the minimum over devices of each
table's last timestamp; the result is `ok (start_ns, end_ns)` when
`start_ns <= end_ns` and the hard "empty overlap" error when
`start_ns > end_ns`. -/
theorem compute_time_range_spec (dfs : List (List TimestampRecord))
    (hne : dfs ≠ []) (hall : ∀ df ∈ dfs, df ≠ []) :
    ∃ s e,
      (∀ df ∈ dfs, ∀ r, df.head? = some r → r.timestamp_ns ≤ s) ∧
      (∃ df ∈ dfs, ∃ r, df.head? = some r ∧ r.timestamp_ns = s) ∧
      (∀ df ∈ dfs, ∀ r, df.getLast? = some r → e ≤ r.timestamp_ns) ∧
      (∃ df ∈ dfs, ∃ r, df.getLast? = some r ∧ r.timestamp_ns = e) ∧
      (s ≤ e → compute_time_range dfs = .ok (s, e)) ∧
      (e < s → compute_time_range dfs = .error emptyOverlapMsg) := by
  match dfs with
  | [] => exact absurd rfl hne
  | d0 :: rest =>
      refine ⟨rest.foldl (fun acc df => max acc (firstStamp df)) (firstStamp d0),
        rest.foldl (fun acc df => min acc (lastStamp df)) (lastStamp d0),
        ?_, ?_, ?_, ?_, ?_, ?_⟩
      · intro df hdf r hr
        rw [← firstStamp_head? df r hr]
        rw [← List.foldl_map firstStamp max]
        rcases List.mem_cons.mp hdf with rfl | hdf'
        · exact (foldl_max_bound _ _).1
        · exact (foldl_max_bound _ _).2 _ (List.mem_map_of_mem firstStamp hdf')
      · rw [← List.foldl_map firstStamp max]
        rcases foldl_max_attained (rest.map firstStamp) (firstStamp d0) with h | h
        · refine ⟨d0, List.mem_cons_self d0 rest, ?_⟩
          obtain ⟨r, hr, hts⟩ := head?_firstStamp d0 (hall d0 (List.mem_cons_self d0 rest))
          exact ⟨r, hr, by rw [hts, h]⟩
        · obtain ⟨df, hdf, hfs⟩ := List.mem_map.mp h
          refine ⟨df, List.mem_cons_of_mem d0 hdf, ?_⟩
          obtain ⟨r, hr, hts⟩ := head?_firstStamp df (hall df (List.mem_cons_of_mem d0 hdf))
          exact ⟨r, hr, by rw [hts, hfs]⟩
      · intro df hdf r hr
        rw [← lastStamp_getLast? df r hr]
        rw [← List.foldl_map lastStamp min]
        rcases List.mem_cons.mp hdf with rfl | hdf'
        · exact (foldl_min_bound _ _).1
        · exact (foldl_min_bound _ _).2 _ (List.mem_map_of_mem lastStamp hdf')
      · rw [← List.foldl_map lastStamp min]
        rcases foldl_min_attained (rest.map lastStamp) (lastStamp d0) with h | h
        · refine ⟨d0, List.mem_cons_self d0 rest, ?_⟩
          obtain ⟨r, hr, hts⟩ := getLast?_lastStamp d0 (hall d0 (List.mem_cons_self d0 rest))
          exact ⟨r, hr, by rw [hts, h]⟩
        · obtain ⟨df, hdf, hfs⟩ := List.mem_map.mp h
          refine ⟨df, List.mem_cons_of_mem d0 hdf, ?_⟩
          obtain ⟨r, hr, hts⟩ := getLast?_lastStamp df (hall df (List.mem_cons_of_mem d0 hdf))
          exact ⟨r, hr, by rw [hts, hfs]⟩
      · intro hle
        have hdef : compute_time_range (d0 :: rest)
            = if rest.foldl (fun acc df => min acc (lastStamp df)) (lastStamp d0)
                  < rest.foldl (fun acc df => max acc (firstStamp df)) (firstStamp d0)
              then .error emptyOverlapMsg
              else .ok (rest.foldl (fun acc df => max acc (firstStamp df)) (firstStamp d0),
                        rest.foldl (fun acc df => min acc (lastStamp df)) (lastStamp d0)) := rfl
        rw [hdef, if_neg (not_lt.mpr hle)]
      · intro hlt
        have hdef : compute_time_range (d0 :: rest)
            = if rest.foldl (fun acc df => min acc (lastStamp df)) (lastStamp d0)
                  < rest.foldl (fun acc df => max acc (firstStamp df)) (firstStamp d0)
              then .error emptyOverlapMsg
              else .ok (rest.foldl (fun acc df => max acc (firstStamp df)) (firstStamp d0),
                        rest.foldl (fun acc df => min acc (lastStamp df)) (lastStamp d0)) := rfl
        rw [hdef, if_pos hlt]

theorem compute_time_range_spec_witness :
    ([[(⟨0, 0, false⟩ : TimestampRecord), ⟨1, 10, false⟩],
      [(⟨0, 5, false⟩ : TimestampRecord), ⟨1, 12, false⟩]]
        : List (List TimestampRecord)) ≠ [] ∧
    (∃ s e,
      (∀ df ∈ ([[(⟨0, 0, false⟩ : TimestampRecord), ⟨1, 10, false⟩],
          [(⟨0, 5, false⟩ : TimestampRecord), ⟨1, 12, false⟩]]
            : List (List TimestampRecord)), ∀ r, df.head? = some r → r.timestamp_ns ≤ s) ∧
      (∃ df ∈ ([[(⟨0, 0, false⟩ : TimestampRecord), ⟨1, 10, false⟩],
          [(⟨0, 5, false⟩ : TimestampRecord), ⟨1, 12, false⟩]]
            : List (List TimestampRecord)), ∃ r, df.head? = some r ∧ r.timestamp_ns = s) ∧
      (∀ df ∈ ([[(⟨0, 0, false⟩ : TimestampRecord), ⟨1, 10, false⟩],
          [(⟨0, 5, false⟩ : TimestampRecord), ⟨1, 12, false⟩]]
            : List (List TimestampRecord)), ∀ r, df.getLast? = some r → e ≤ r.timestamp_ns) ∧
      (∃ df ∈ ([[(⟨0, 0, false⟩ : TimestampRecord), ⟨1, 10, false⟩],
          [(⟨0, 5, false⟩ : TimestampRecord), ⟨1, 12, false⟩]]
            : List (List TimestampRecord)), ∃ r, df.getLast? = some r ∧ r.timestamp_ns = e) ∧
      (s ≤ e → compute_time_range
          [[(⟨0, 0, false⟩ : TimestampRecord), ⟨1, 10, false⟩],
           [(⟨0, 5, false⟩ : TimestampRecord), ⟨1, 12, false⟩]] = .ok (s, e)) ∧
      (e < s → compute_time_range
          [[(⟨0, 0, false⟩ : TimestampRecord), ⟨1, 10, false⟩],
           [(⟨0, 5, false⟩ : TimestampRecord), ⟨1, 12, false⟩]]
        = .error emptyOverlapMsg)) :=
  ⟨by decide,
    compute_time_range_spec
      [[⟨0, 0, false⟩, ⟨1, 10, false⟩], [⟨0, 5, false⟩, ⟨1, 12, false⟩]]
      (by decide) (by decide)⟩

section ExceptLemmas

theorem except_bind_ok {ε α β : Type} (a : α) (g : α → Except ε β) :
    (Except.ok a >>= g) = g a := rfl

theorem except_bind_error {ε α β : Type} (m : ε) (g : α → Except ε β) :
    ((Except.error m : Except ε α) >>= g) = .error m := rfl

theorem mapM_ok_forall {α β : Type} (f : α → Except String β) :
    ∀ (l : List α) (rows : List β), l.mapM f = .ok rows → ∀ e ∈ l, ∃ b, f e = .ok b := by
  intro l
  induction l with
  | nil =>
      intro rows _ e he
      simp at he
  | cons a l ih =>
      intro rows h e he
      rw [List.mapM_cons] at h
      cases hfa : f a with
      | error m =>
          rw [hfa, except_bind_error] at h
          exact Except.noConfusion h
      | ok b =>
          rw [hfa, except_bind_ok] at h
          cases hrest : l.mapM f with
          | error m =>
              rw [hrest, except_bind_error] at h
              exact Except.noConfusion h
          | ok bs =>
              rcases List.mem_cons.mp he with rfl | he'
              · exact ⟨b, hfa⟩
              · exact ih bs hrest e he'

theorem mapM_ok_of_forall {α β : Type} (f : α → Except String β) :
    ∀ l : List α, (∀ e ∈ l, ∃ b, f e = .ok b) → ∃ rows, l.mapM f = .ok rows := by
  intro l
  induction l with
  | nil =>
      intro _
      exact ⟨[], rfl⟩
  | cons a l ih =>
      intro h
      obtain ⟨b, hb⟩ := h a (List.mem_cons_self a l)
      obtain ⟨rows, hrows⟩ := ih (fun e he => h e (List.mem_cons_of_mem a he))
      refine ⟨b :: rows, ?_⟩
      rw [List.mapM_cons, hb, except_bind_ok, hrows, except_bind_ok]
      rfl

theorem mapM_error_mem {α β : Type} (f : α → Except String β) :
    ∀ (l : List α) (m : String), l.mapM f = .error m → ∃ e ∈ l, f e = .error m := by
  intro l
  induction l with
  | nil =>
      intro m h
      rw [show ([] : List α).mapM f = .ok [] from rfl] at h
      exact Except.noConfusion h
  | cons a l ih =>
      intro m h
      rw [List.mapM_cons] at h
      cases hfa : f a with
      | error m' =>
          rw [hfa, except_bind_error] at h
          have : m' = m := Except.error.inj h
          exact ⟨a, List.mem_cons_self a l, this ▸ hfa⟩
      | ok b =>
          rw [hfa, except_bind_ok] at h
          cases hrest : l.mapM f with
          | error m' =>
              rw [hrest, except_bind_error] at h
              have : m' = m := Except.error.inj h
              obtain ⟨e, he, hfe⟩ := ih m' hrest
              exact ⟨e, List.mem_cons_of_mem a he, this ▸ hfe⟩
          | ok bs =>
              rw [hrest, except_bind_ok] at h
              exact Except.noConfusion h

end ExceptLemmas

section ScanLemmas

theorem scanClient_ok_of_counts (e : DirEntry) (h1 : e.csvs.length = 1)
    (h2 : e.mp4s.length = 1) : ∃ b, scanClient e = .ok b := by
  refine ⟨(e.csvs.getD 0 [], e.mp4s.getD 0 ""), ?_⟩
  rw [scanClient, if_neg (by simp [h1]), if_neg (by simp [h2])]

theorem scanClient_counts_of_ok (e : DirEntry) (b : List TimestampRecord × String)
    (h : scanClient e = .ok b) : e.csvs.length = 1 ∧ e.mp4s.length = 1 := by
  by_cases h1 : e.csvs.length = 1
  · by_cases h2 : e.mp4s.length = 1
    · exact ⟨h1, h2⟩
    · rw [scanClient, if_neg (by simp [h1]), if_pos (by simp [h2])] at h
      exact Except.noConfusion h
  · rw [scanClient, if_pos (by simp [h1])] at h
    exact Except.noConfusion h

theorem scanClient_error_shape (e : DirEntry) (m : String) (h : scanClient e = .error m) :
    (m = expectingMsg "CSV" e.stem e.csvs.length ∧ e.csvs.length ≠ 1) ∨
    (m = expectingMsg "MP4" e.stem e.mp4s.length ∧ e.mp4s.length ≠ 1) := by
  by_cases h1 : e.csvs.length = 1
  · by_cases h2 : e.mp4s.length = 1
    · rw [scanClient, if_neg (by simp [h1]), if_neg (by simp [h2])] at h
      exact Except.noConfusion h
    · rw [scanClient, if_neg (by simp [h1]), if_pos (by simp [h2])] at h
      exact Or.inr ⟨(Except.error.inj h).symm, h2⟩
  · rw [scanClient, if_pos (by simp [h1])] at h
    exact Or.inl ⟨(Except.error.inj h).symm, h1⟩

theorem scan_session_dir_error_bind (entries : List DirEntry) (m : String)
    (h : (entries.filter (fun e => matchesClientIDPattern e.stem)).mapM scanClient
      = .error m) :
    scan_session_dir entries = .error m := by
  rw [scan_session_dir]
  rw [show (do
        let clients := entries.filter (fun e => matchesClientIDPattern e.stem)
        let rows ← clients.mapM scanClient
        pure (clients.map (fun e => e.stem), rows.map (fun r => r.1), rows.map (fun r => r.2))
      : Except String (List String × List (List TimestampRecord) × List String))
    = (entries.filter (fun e => matchesClientIDPattern e.stem)).mapM scanClient >>=
        (fun rows => pure ((entries.filter (fun e => matchesClientIDPattern e.stem)).map
          (fun e => e.stem), rows.map (fun r => r.1), rows.map (fun r => r.2))) from rfl]
  rw [h, except_bind_error]

theorem scan_session_dir_ok_bind (entries : List DirEntry)
    (rows : List (List TimestampRecord × String))
    (h : (entries.filter (fun e => matchesClientIDPattern e.stem)).mapM scanClient
      = .ok rows) :
    scan_session_dir entries
      = .ok ((entries.filter (fun e => matchesClientIDPattern e.stem)).map (fun e => e.stem),
          rows.map (fun r => r.1), rows.map (fun r => r.2)) := by
  rw [scan_session_dir]
  rw [show (do
        let clients := entries.filter (fun e => matchesClientIDPattern e.stem)
        let rows ← clients.mapM scanClient
        pure (clients.map (fun e => e.stem), rows.map (fun r => r.1), rows.map (fun r => r.2))
      : Except String (List String × List (List TimestampRecord) × List String))
    = (entries.filter (fun e => matchesClientIDPattern e.stem)).mapM scanClient >>=
        (fun rows => pure ((entries.filter (fun e => matchesClientIDPattern e.stem)).map
          (fun e => e.stem), rows.map (fun r => r.1), rows.map (fun r => r.2))) from rfl]
  rw [h, except_bind_ok]
  rfl

end ScanLemmas

/-- C7: for every discovered device folder, the session scan fails with an
exception before any pipeline output unless the folder holds exactly 1 CSV
and exactly 1 MP4; the error message reports the device identifier and the
expected versus found counts, and on scan failure the whole program fails
with that very error before producing any composition job. -/
theorem scan_requires_single_csv_mp4 (entries : List DirEntry) (threshold_ns : Int) :
    ((∃ out, scan_session_dir entries = .ok out) ↔
      ∀ e ∈ entries, matchesClientIDPattern e.stem = true →
        e.csvs.length = 1 ∧ e.mp4s.length = 1) ∧
    (∀ m, scan_session_dir entries = .error m →
      (∃ e ∈ entries, matchesClientIDPattern e.stem = true ∧
        ((m = expectingMsg "CSV" e.stem e.csvs.length ∧ e.csvs.length ≠ 1) ∨
         (m = expectingMsg "MP4" e.stem e.mp4s.length ∧ e.mp4s.length ≠ 1))) ∧
      mainFull entries threshold_ns = .error m) := by
  constructor
  · constructor
    · rintro ⟨out, hout⟩ e he hvalid
      have hmem : e ∈ entries.filter (fun e => matchesClientIDPattern e.stem) :=
        List.mem_filter.mpr ⟨he, hvalid⟩
      cases hmap : (entries.filter (fun e => matchesClientIDPattern e.stem)).mapM scanClient with
      | error m =>
          rw [scan_session_dir_error_bind entries m hmap] at hout
          exact Except.noConfusion hout
      | ok rows =>
          obtain ⟨b, hb⟩ := mapM_ok_forall scanClient _ rows hmap e hmem
          exact scanClient_counts_of_ok e b hb
    · intro hshape
      have hforall : ∀ e ∈ entries.filter (fun e => matchesClientIDPattern e.stem),
          ∃ b, scanClient e = .ok b := by
        intro e he
        obtain ⟨hmem, hvalid⟩ := List.mem_filter.mp he
        obtain ⟨h1, h2⟩ := hshape e hmem hvalid
        exact scanClient_ok_of_counts e h1 h2
      obtain ⟨rows, hrows⟩ := mapM_ok_of_forall scanClient _ hforall
      exact ⟨_, scan_session_dir_ok_bind entries rows hrows⟩
  · intro m hm
    have hmap : (entries.filter (fun e => matchesClientIDPattern e.stem)).mapM scanClient
        = .error m := by
      cases hmap : (entries.filter (fun e => matchesClientIDPattern e.stem)).mapM scanClient with
      | error m' =>
          rw [scan_session_dir_error_bind entries m' hmap] at hm
          exact congrArg _ (Except.error.inj hm)
      | ok rows =>
          rw [scan_session_dir_ok_bind entries rows hmap] at hm
          exact Except.noConfusion hm
    obtain ⟨e, he, hfe⟩ := mapM_error_mem scanClient _ m hmap
    obtain ⟨hmem, hvalid⟩ := List.mem_filter.mp he
    refine ⟨⟨e, hmem, hvalid, scanClient_error_shape e m hfe⟩, ?_⟩
    rw [mainFull]
    rw [show (do
          let (clientIDs, df_list, mp4_list) ← scan_session_dir entries
          mainPipeline clientIDs df_list mp4_list threshold_ns
        : Except String (List CompositionJob))
      = scan_session_dir entries >>= (fun x =>
          mainPipeline x.1 x.2.1 x.2.2 threshold_ns) from ?_]
    · rw [hm, except_bind_error]
    · cases hscan : scan_session_dir entries with
      | error m' => rfl
      | ok out => rfl

theorem scan_requires_single_csv_mp4_witness :
    (∃ e ∈ [DirEntry.mk "0123456789abcdef" [] ["v.mp4"]],
      matchesClientIDPattern e.stem = true ∧
      ((expectingMsg "CSV" "0123456789abcdef" 0
          = expectingMsg "CSV" e.stem e.csvs.length ∧ e.csvs.length ≠ 1) ∨
       (expectingMsg "CSV" "0123456789abcdef" 0
          = expectingMsg "MP4" e.stem e.mp4s.length ∧ e.mp4s.length ≠ 1))) ∧
    mainFull [DirEntry.mk "0123456789abcdef" [] ["v.mp4"]] 10
      = .error (expectingMsg "CSV" "0123456789abcdef" 0) :=
  (scan_requires_single_csv_mp4 [DirEntry.mk "0123456789abcdef" [] ["v.mp4"]] 10).2
    (expectingMsg "CSV" "0123456789abcdef" 0) (by rfl)

theorem zipWith3Jobs_get : ∀ (ds ts : List (List TimestampRecord)) (ms : List String)
    (i : Nat) (hi : i < (zipWith3Jobs ds ts ms).length),
    ∃ (hd : i < ds.length) (ht : i < ts.length) (hm : i < ms.length),
      (zipWith3Jobs ds ts ms).get ⟨i, hi⟩
        = { extractTable := ds.get ⟨i, hd⟩, rebuildTable := ts.get ⟨i, ht⟩,
            videoFile := ms.get ⟨i, hm⟩ } := by
  intro ds
  induction ds with
  | nil =>
      intro ts ms i hi
      simp [zipWith3Jobs] at hi
  | cons d ds ih =>
      intro ts ms i hi
      cases ts with
      | nil => simp [zipWith3Jobs] at hi
      | cons t ts =>
          cases ms with
          | nil => simp [zipWith3Jobs] at hi
          | cons m ms =>
              cases i with
              | zero => exact ⟨by simp, by simp, by simp, rfl⟩
              | succ i =>
                  have hi' : i < (zipWith3Jobs ds ts ms).length := by
                    simpa [zipWith3Jobs] using hi
                  obtain ⟨hd, ht, hm, heq⟩ := ih ts ms i hi'
                  exact ⟨Nat.succ_lt_succ hd, Nat.succ_lt_succ ht, Nat.succ_lt_succ hm, heq⟩

/-- C6: when the batch pipeline succeeds, each device's composition job
feeds the untouched original raw table to frame extraction and the table
obtained by repairing and trimming to output reconstruction; repair builds
a new table, leaving the raw input available unchanged. -/
theorem main_composition_tables (ids : List String) (dfs : List (List TimestampRecord))
    (mp4s : List String) (thr : Int) (jobs : List CompositionJob)
    (h : mainPipeline ids dfs mp4s thr = .ok jobs) :
    ∃ repaired mn mx,
      dfs.mapM repairPipeline = .ok repaired ∧
      compute_time_range repaired = .ok (mn, mx) ∧
      jobs = zipWith3Jobs dfs (trim_repaired_into_interval repaired mn mx thr) mp4s ∧
      ∀ i (hi : i < jobs.length),
        ∃ (hd : i < dfs.length)
          (ht : i < (trim_repaired_into_interval repaired mn mx thr).length),
          (jobs.get ⟨i, hi⟩).extractTable = dfs.get ⟨i, hd⟩ ∧
          (jobs.get ⟨i, hi⟩).rebuildTable
            = (trim_repaired_into_interval repaired mn mx thr).get ⟨i, ht⟩ := by
  rw [show mainPipeline ids dfs mp4s thr
      = dfs.mapM repairPipeline >>= (fun repaired =>
          compute_time_range repaired >>= (fun mc =>
            checkSameNumberOfFrames ids
                (trim_repaired_into_interval repaired mc.1 mc.2 thr) >>= (fun _ =>
              pure (zipWith3Jobs dfs
                (trim_repaired_into_interval repaired mc.1 mc.2 thr) mp4s)))) from ?_] at h
  · cases hrep : dfs.mapM repairPipeline with
    | error m =>
        rw [hrep, except_bind_error] at h
        exact Except.noConfusion h
    | ok repaired =>
        rw [hrep, except_bind_ok] at h
        cases hrange : compute_time_range repaired with
        | error m =>
            rw [hrange, except_bind_error] at h
            exact Except.noConfusion h
        | ok mc =>
            obtain ⟨mn, mx⟩ := mc
            rw [hrange, except_bind_ok] at h
            cases hchk : checkSameNumberOfFrames ids
                (trim_repaired_into_interval repaired mn mx thr) with
            | error m =>
                rw [hchk, except_bind_error] at h
                exact Except.noConfusion h
            | ok u =>
                cases u
                rw [hchk, except_bind_ok] at h
                have hjobs : jobs
                    = zipWith3Jobs dfs (trim_repaired_into_interval repaired mn mx thr) mp4s :=
                  (Except.ok.inj h).symm
                subst hjobs
                refine ⟨repaired, mn, mx, rfl, hrange, rfl, ?_⟩
                intro i hi
                obtain ⟨hd, ht, hm, heq⟩ := zipWith3Jobs_get dfs
                  (trim_repaired_into_interval repaired mn mx thr) mp4s i hi
                exact ⟨hd, ht, by rw [heq], by rw [heq]⟩
  · unfold mainPipeline
    apply congrArg
    funext repaired
    apply congrArg
    funext mc
    obtain ⟨mn, mx⟩ := mc
    rfl

theorem main_composition_tables_witness :
    ∃ repaired mn mx,
      sampleDfs.mapM repairPipeline = .ok repaired ∧
      compute_time_range repaired = .ok (mn, mx) ∧
      [sampleJob] = zipWith3Jobs sampleDfs
          (trim_repaired_into_interval repaired mn mx 10) ["v.mp4"] ∧
      ∀ i (hi : i < [sampleJob].length),
        ∃ (hd : i < sampleDfs.length)
          (ht : i < (trim_repaired_into_interval repaired mn mx 10).length),
          ([sampleJob].get ⟨i, hi⟩).extractTable = sampleDfs.get ⟨i, hd⟩ ∧
          ([sampleJob].get ⟨i, hi⟩).rebuildTable
            = (trim_repaired_into_interval repaired mn mx 10).get ⟨i, ht⟩ :=
  main_composition_tables ["0123456789abcdef"] sampleDfs ["v.mp4"] 10 [sampleJob] (by rfl)

